import Mathlib

/-!
Verification of the customer lifecycle analytics of `src/app.py`.

The pandas pipeline is shallowly embedded: a dataset is a list of
transaction rows (one row per line item), derived columns become Lean
functions of the row list, `groupby`/`nunique`/`sum` aggregates become
`Finset` images and list sums, and fallible steps (`.iloc[0]` on a
possibly-empty frame, missing DataFrame columns) return `Option`/`Except`.
Timestamps are modelled as (year, month, day) triples ordered
lexicographically; `NaT` (the result of `pd.to_datetime(..., errors='coerce')`
on an unparsable value) is `none`.
-/

namespace CRM

/-- Calendar timestamp, the parsed form of the `訂單時間` column.
Ordering is chronological, i.e. lexicographic on (year, month, day). -/
structure Timestamp where
  year : Nat
  month : Nat
  day : Nat
deriving DecidableEq, Repr

/-- Chronological strict order on timestamps. -/
def Timestamp.Lt (a b : Timestamp) : Prop :=
  a.year < b.year ∨ (a.year = b.year ∧
    (a.month < b.month ∨ (a.month = b.month ∧ a.day < b.day)))

instance : DecidableRel Timestamp.Lt := fun a b => by
  unfold Timestamp.Lt; infer_instance

/-- Order on the parsed `訂單時間` column used by `sort_values`:
`NaT` (`none`) sorts last (`na_position='last'`, the pandas default). -/
def timeBefore : Option Timestamp → Option Timestamp → Prop
  | some a, some b => Timestamp.Lt a b
  | some _, none => True
  | none, _ => False

instance : DecidableRel timeBefore := fun a b =>
  match a, b with
  | some a, some b => inferInstanceAs (Decidable (Timestamp.Lt a b))
  | some _, none => .isTrue trivial
  | none, some _ => .isFalse (fun h => h)
  | none, none => .isFalse (fun h => h)

/-- One transaction row (one line item) of the merged upload, after the
type coercions of `src/app.py` lines 64-67: `orderId` = `訂單號碼`,
`time` = `訂單時間` (`none` = `NaT`), `member` = `會員`,
`product` = `品項`, `amount` = `總價`. -/
structure Row where
  orderId : String
  time : Option Timestamp
  member : String
  product : String
  amount : ℚ
deriving DecidableEq, Repr

/-- The merged transaction table. -/
abbrev Dataset := List Row

/-- The derived `年份` column (`df['訂單時間'].dt.year`); `NaT` yields `NaN`,
modelled as `none`, which compares unequal to every year. -/
def yearOf (r : Row) : Option Nat := r.time.map (·.year)

/-- The year filter `df[df['年份'] == selected_year]` (line 92 and the
`df['年份'] == selected_year` filters elsewhere). `NaN` years never match. -/
def yearRows (ds : Dataset) (y : Nat) : List Row :=
  ds.filter (fun r => yearOf r == some y)

/-- The same year filter applied to position-indexed rows (`df.enum`),
used where the original row position matters (visit-index generation). -/
def yearRowsE (ds : Dataset) (y : Nat) : List (Nat × Row) :=
  ds.enum.filter (fun p => yearOf p.2 == some y)

/-! ## Ingestion (lines 59-72)

The merged frame either has a column or raising `KeyError` aborts the
script. The preprocessing block touches `訂單時間` (line 65), then
`會員` and `訂單號碼` (line 70); `品項` and `總價` are first touched by
later analysis code. There is no check for an empty merged table. -/

/-- A merged raw table: the set of columns the concatenated upload frame
carries, plus its (already parsed) rows. -/
structure RawTable where
  cols : List String
  rows : List Row
deriving DecidableEq, Repr

/-- The untyped error that aborts preprocessing: a pandas `KeyError` for a
missing column. No `SchemaError` / `EmptyDatasetError` kinds exist in the code. -/
inductive PreError where
  | keyError (col : String)
deriving DecidableEq, Repr

/-- Embeds the preprocessing of lines 64-72: each derived-column step
raises `KeyError` at the first missing column it accesses, in the access
order `訂單時間`, `會員`, `訂單號碼`; otherwise the row list goes through
unchanged. A zero-row table is not rejected. -/
def preprocess (t : RawTable) : Except PreError Dataset :=
  if "訂單時間" ∈ t.cols then
    if "會員" ∈ t.cols then
      if "訂單號碼" ∈ t.cols then .ok t.rows
      else .error (.keyError "訂單號碼")
    else .error (.keyError "會員")
  else .error (.keyError "訂單時間")

/-! ## Visit index `第幾次來` (lines 180-188)

`df.sort_values(['會員', '訂單時間'])` (a stable multi-key lexsort) followed
by `groupby('會員').cumcount() + 1` assigns to each row its 1-based rank
among the rows of the same member, ordered by timestamp and, for exact
timestamp ties, by original row position. -/

/-- The stable sort key order of lines 185-186: row `q` is placed before
row `p` within the same member's group. -/
def beforeSM (q p : Nat × Row) : Prop :=
  q.2.member = p.2.member ∧
    (timeBefore q.2.time p.2.time ∨ (q.2.time = p.2.time ∧ q.1 < p.1))

instance : DecidableRel beforeSM := fun q p => by
  unfold beforeSM; infer_instance

/-- The `第幾次來` column of row `p` (given with its original position):
1 plus the number of rows sorted before it within its member's group.
This is exactly `cumcount() + 1` after the stable sort of line 185. -/
def visitIdx (ds : Dataset) (p : Nat × Row) : Nat :=
  1 + (ds.enum.filter (fun q => decide (beforeSM q p))).length

/-! ## Visit funnel (lines 190-196) -/

/-- Distinct members of the selected year whose row carries visit index `k`
(the fibers of `groupby('第幾次來')['會員']`, line 191). -/
def visitMembers (ds : Dataset) (y k : Nat) : Finset String :=
  (((yearRowsE ds y).filter (fun p => visitIdx ds p == k)).map (·.2.member)).toFinset

/-- `nunique` member count at visit index `k` in year `y` (line 191). -/
def memberCount (ds : Dataset) (y k : Nat) : Nat :=
  (visitMembers ds y k).card

/-- The visit indices listed by the funnel: `groupby` emits the observed
key values in ascending order, and line 193 keeps only `第幾次來 <= 10`. -/
def funnelKeys (ds : Dataset) (y : Nat) : List Nat :=
  (((List.range 10).map (· + 1)).filter
    (fun k => (yearRowsE ds y).any (fun p => visitIdx ds p == k)))

/-- The `visit_funnel` frame of lines 191-193: (`第幾次來`, `會員數`) rows. -/
def visitFunnel (ds : Dataset) (y : Nat) : List (Nat × Nat) :=
  (funnelKeys ds y).map (fun k => (k, memberCount ds y k))

/-- Round-half-to-even on `ℚ`, the rounding of `numpy`/`pandas` `.round`. -/
def roundHalfEven (q : ℚ) : ℤ :=
  if q - ⌊q⌋ < 1/2 then ⌊q⌋
  else if 1/2 < q - ⌊q⌋ then ⌊q⌋ + 1
  else if ⌊q⌋ % 2 = 0 then ⌊q⌋ else ⌊q⌋ + 1

/-- `Series.round(1)`: round to one decimal place, halves to even. -/
def round1 (q : ℚ) : ℚ := (roundHalfEven (q * 10) : ℚ) / 10

/-- The `留存率` column of line 196: each member count divided by the count
of the funnel's first row (`visit_funnel.iloc[0]['會員數']`), times 100,
rounded to one decimal. `.iloc[0]` on an empty frame raises `IndexError`,
modelled as `none`. -/
def funnelRates (ds : Dataset) (y : Nat) : Option (List (Nat × ℚ)) :=
  match visitFunnel ds y with
  | [] => none
  | (k0, c0) :: rest =>
      some (((k0, c0) :: rest).map
        (fun p => (p.1, round1 ((p.2 : ℚ) / (c0 : ℚ) * 100))))

/-! ## Magic number (lines 226-229) -/

/-- The `留存率降幅` column: `diff().abs()` of the rate column. The first
entry is `NaN` (`none`); entry `i+1` is `|rate (i+1) - rate i|`. -/
def declines (rates : List ℚ) : List (Option ℚ) :=
  none :: (rates.zipWith (fun a b => some |b - a|) rates.tail)

/-- The funnel rows paired with their `留存率降幅` value. -/
def withDeclines (funnel : List (Nat × ℚ)) : List ((Nat × ℚ) × Option ℚ) :=
  funnel.zip (declines (funnel.map (·.2)))

/-- The rows surviving the `第幾次來 >= 3` filter of line 228 that carry a
non-`NaN` decline (`idxmin` skips `NaN`), as (visit index, decline) pairs. -/
def magicCandidates (funnel : List (Nat × ℚ)) : List (Nat × ℚ) :=
  (withDeclines funnel).filterMap (fun x =>
    match x.2 with
    | some d => if 3 ≤ x.1.1 then some (x.1.1, d) else none
    | none => none)

/-- `idxmin`: the first row attaining the minimal value. On an all-`NaN`
or empty selection (`idxmin` raises there) the result is `none`. -/
def pickFirstMin : List (Nat × ℚ) → Option (Nat × ℚ)
  | [] => none
  | x :: xs =>
      match pickFirstMin xs with
      | none => some x
      | some y => some (if y.2 < x.2 then y else x)

/-- Lines 226-229: when the funnel has more than 2 rows, the `第幾次來`
value of the first row with `第幾次來 >= 3` attaining the minimal
`留存率降幅`; otherwise no magic number is shown. -/
def magicNumber (funnel : List (Nat × ℚ)) : Option Nat :=
  if 2 < funnel.length then (pickFirstMin (magicCandidates funnel)).map (·.1)
  else none

/-! ## Frequency segmentation (lines 98-120) and its one-timer consumer
(lines 153-155) -/

/-- The member column of `member_stats` (line 99): the distinct members
active in the selected year. -/
def activeMembers (ds : Dataset) (y : Nat) : Finset String :=
  ((yearRows ds y).map (·.member)).toFinset

/-- The `年度總次數` entry of `member_stats`: `nunique` of `訂單號碼` for
one member within the selected year (line 100). -/
def memberOrderCount (ds : Dataset) (y : Nat) (m : String) : Nat :=
  (((yearRows ds y).filter (fun r => r.member == m)).map (·.orderId)).toFinset.card

/-- The `年度總消費` entry of `member_stats`: revenue sum for one member
within the selected year (line 101). -/
def memberRevenue (ds : Dataset) (y : Nat) (m : String) : ℚ :=
  (((yearRows ds y).filter (fun r => r.member == m)).map (·.amount)).sum

/-- The members falling in the `freq_dist` group of `年度總次數 = v`. -/
def bucketMembers (ds : Dataset) (y v : Nat) : Finset String :=
  (activeMembers ds y).filter (fun m => memberOrderCount ds y m = v)

/-- The `總營收` of the `freq_dist` group of `年度總次數 = v` (line 106). -/
def bucketRevenue (ds : Dataset) (y v : Nat) : ℚ :=
  ∑ m ∈ bucketMembers ds y v, memberRevenue ds y m

/-- The members pooled into the `>10` overflow row (lines 114-118). -/
def overMembers (ds : Dataset) (y : Nat) : Finset String :=
  (activeMembers ds y).filter (fun m => 10 < memberOrderCount ds y m)

/-- The revenue pooled into the `>10` overflow row. -/
def overRevenue (ds : Dataset) (y : Nat) : ℚ :=
  ∑ m ∈ overMembers ds y, memberRevenue ds y m

/-- One displayed row of `freq_dist_display`: the (stringified) bucket
label, the `人數` head count and the `總營收` revenue sum. -/
structure FreqBucket where
  label : String
  members : Nat
  revenue : ℚ
deriving DecidableEq, Repr

/-- The `freq_dist_display` frame of lines 113-120: groups of
`年度總次數 <= 10` in ascending key order (`groupby` emits keys sorted,
and groups are nonempty by construction), followed by a single `>10` row
exactly when some member exceeds 10 visits. -/
def freqDistDisplay (ds : Dataset) (y : Nat) : List FreqBucket :=
  ((((List.range 10).map (· + 1)).filter
      (fun v => (bucketMembers ds y v).card ≠ 0)).map
    (fun v => ⟨toString v, (bucketMembers ds y v).card, bucketRevenue ds y v⟩))
  ++ (if (overMembers ds y).card ≠ 0 then
        [⟨">10", (overMembers ds y).card, overRevenue ds y⟩] else [])

/-- Line 153: `freq_dist_display[... == '1'].iloc[0]`. `.iloc[0]` of an
empty selection raises `IndexError`, modelled as `none`. -/
def oneTimer (ds : Dataset) (y : Nat) : Option FreqBucket :=
  ((freqDistDisplay ds y).filter (fun b => b.label == "1")).head?

/-! ## Product BCG matrix (lines 414-440) -/

/-- `nunique` of `訂單號碼` for one product within the selected year
(the `訂單數` column of `product_matrix`, lines 415-419). -/
def productOrders (ds : Dataset) (y : Nat) (p : String) : Nat :=
  (((yearRows ds y).filter (fun r => r.product == p)).map (·.orderId)).toFinset.card

/-- Revenue sum for one product within the selected year (the `總營收`
column of `product_matrix`). -/
def productRevenue (ds : Dataset) (y : Nat) (p : String) : ℚ :=
  (((yearRows ds y).filter (fun r => r.product == p)).map (·.amount)).sum

/-- The distinct products appearing in the selected year. -/
def periodProducts (ds : Dataset) (y : Nat) : Finset String :=
  ((yearRows ds y).map (·.product)).toFinset

/-- The products surviving the `訂單數 >= 5` filter of line 423. -/
def survivors (ds : Dataset) (y : Nat) : Finset String :=
  (periodProducts ds y).filter (fun p => 5 ≤ productOrders ds y p)

/-- Insertion of a value into a `≤`-sorted list (helper for the median). -/
def insertLe (a : ℚ) : List ℚ → List ℚ
  | [] => [a]
  | b :: t => if a ≤ b then a :: b :: t else b :: insertLe a t

/-- Insertion sort, ascending (the sort underlying `Series.median`). -/
def sortQ : List ℚ → List ℚ
  | [] => []
  | a :: t => insertLe a (sortQ t)

/-- `Series.median()`: middle element of the sorted values for odd length,
mean of the two middle elements for even length (0 on the empty list,
where pandas yields `NaN`; the pipeline never consumes that case). -/
def medianQ (l : List ℚ) : ℚ :=
  let s := sortQ l
  if s.length = 0 then 0
  else if s.length % 2 = 1 then s.getD (s.length / 2) 0
  else (s.getD (s.length / 2 - 1) 0 + s.getD (s.length / 2) 0) / 2

/-- `median_orders` (line 426): median of the surviving products' order
counts — computed after the `>= 5` filter. -/
def medianOrders (ds : Dataset) (y : Nat) : ℚ :=
  medianQ (((survivors ds y).sort (· ≤ ·)).map (fun p => (productOrders ds y p : ℚ)))

/-- `median_revenue` (line 427): median of the surviving products' revenue
— computed after the `>= 5` filter. -/
def medianRevenue (ds : Dataset) (y : Nat) : ℚ :=
  medianQ (((survivors ds y).sort (· ≤ ·)).map (fun p => productRevenue ds y p))

/-- The four BCG quadrants of lines 430-438: `star` = `⭐ 明星商品`,
`chicken` = `🐔 帶路雞`, `potential` = `💎 潛力股`, `loser` = `❌ 拖油瓶`. -/
inductive Quadrant where
  | star
  | chicken
  | potential
  | loser
deriving DecidableEq, Repr

/-- `classify_product` (lines 430-438): comparison of a product's order
count and revenue against the two medians, with `>=` on the high side. -/
def classifyProduct (orders revenue mo mr : ℚ) : Quadrant :=
  if mo ≤ orders ∧ mr ≤ revenue then .star
  else if mo ≤ orders ∧ revenue < mr then .chicken
  else if orders < mo ∧ mr ≤ revenue then .potential
  else .loser

/-- The classified product set of line 440: every surviving product with
its quadrant. -/
def classifyBCG (ds : Dataset) (y : Nat) : Finset (String × Quadrant) :=
  (survivors ds y).image (fun p =>
    (p, classifyProduct (productOrders ds y p) (productRevenue ds y p)
      (medianOrders ds y) (medianRevenue ds y)))

/-! ## Lifetime aggregates (lines 248-250) -/

/-- The distinct lifetime order ids of one member, over the whole dataset
(no year filter): the basis of `lifetime_freq` (line 249). Rows with an
unparsable timestamp participate. -/
def lifetimeOrders (ds : Dataset) (m : String) : Finset String :=
  ((ds.filter (fun r => r.member == m)).map (·.orderId)).toFinset

/-- The `終身交易次數` value of `lifetime_freq`: `nunique` of `訂單號碼`
per member over the whole dataset. -/
def lifetimeFreq (ds : Dataset) (m : String) : Nat :=
  (lifetimeOrders ds m).card

/-! ## General helper lemmas -/

/-- A filter grows strictly when the predicate weakens and some list
element goes from rejected to accepted. -/
theorem length_filter_lt_length_filter {α : Type} {l : List α} {p q : α → Bool}
    {x : α} (hx : x ∈ l) (himp : ∀ a ∈ l, p a = true → q a = true)
    (hpx : p x = false) (hqx : q x = true) :
    (l.filter p).length < (l.filter q).length := by
  obtain ⟨s, t, rfl⟩ := List.append_of_mem hx
  have hs : List.countP p s ≤ List.countP q s :=
    List.countP_mono_left (fun a ha h => himp a (by simp [ha]) h)
  have ht : List.countP p t ≤ List.countP q t :=
    List.countP_mono_left (fun a ha h => himp a (by simp [ha]) h)
  rw [← List.countP_eq_length_filter, ← List.countP_eq_length_filter]
  rw [List.countP_append, List.countP_append, List.countP_cons, List.countP_cons]
  rw [hpx, hqx]
  simp only [Bool.false_eq_true, if_false, if_true]
  omega

/-- Chronological order on timestamps is transitive. -/
theorem Timestamp.Lt_trans {a b c : Timestamp} (h1 : a.Lt b) (h2 : b.Lt c) :
    a.Lt c := by
  unfold Timestamp.Lt at *
  omega

/-- Chronological order on timestamps is irreflexive. -/
theorem Timestamp.Lt_irrefl (a : Timestamp) : ¬ a.Lt a := by
  unfold Timestamp.Lt
  omega

/-- The `NaT`-last column order is transitive. -/
theorem timeBefore_trans {a b c : Option Timestamp} (h1 : timeBefore a b)
    (h2 : timeBefore b c) : timeBefore a c := by
  match a, b, c with
  | some a, some b, some c => exact Timestamp.Lt_trans h1 h2
  | some _, some _, none => trivial
  | some _, none, none => exact h2.elim
  | some _, none, some _ => exact h2.elim
  | none, _, _ => exact h1.elim

/-- The `NaT`-last column order is irreflexive. -/
theorem timeBefore_irrefl (a : Option Timestamp) : ¬ timeBefore a a := by
  match a with
  | some a => exact Timestamp.Lt_irrefl a
  | none => exact id

/-- The stable sort key order of lines 185-186 is transitive. -/
theorem beforeSM_trans {q p r : Nat × Row} (h1 : beforeSM q p)
    (h2 : beforeSM p r) : beforeSM q r := by
  obtain ⟨hm1, h1⟩ := h1
  obtain ⟨hm2, h2⟩ := h2
  refine ⟨hm1.trans hm2, ?_⟩
  rcases h1 with h1 | ⟨he1, hi1⟩
  · rcases h2 with h2 | ⟨he2, hi2⟩
    · exact Or.inl (timeBefore_trans h1 h2)
    · exact Or.inl (he2 ▸ h1)
  · rcases h2 with h2 | ⟨he2, hi2⟩
    · exact Or.inl (he1 ▸ h2)
    · exact Or.inr ⟨he1.trans he2, hi1.trans hi2⟩

/-- The stable sort key order of lines 185-186 is irreflexive. -/
theorem beforeSM_irrefl (p : Nat × Row) : ¬ beforeSM p p := by
  rintro ⟨-, h | ⟨-, h⟩⟩
  · exact timeBefore_irrefl _ h
  · exact Nat.lt_irrefl _ h

/-! ## C1 — visit index generation -/

/-- First line item of order `T01` in the C1 counterexample. -/
def rowC1a : Row := ⟨"T01", some ⟨2024, 3, 5⟩, "A", "剪髮", 100⟩

/-- Second line item of the same order `T01`, same timestamp. -/
def rowC1b : Row := ⟨"T01", some ⟨2024, 3, 5⟩, "A", "染髮", 200⟩

/-- A dataset consisting of one order with two line items. -/
def dsC1 : Dataset := [rowC1a, rowC1b]

/-- C1 counterexample: two line items of one and the same order
(`訂單號碼 = "T01"`) receive distinct visit indices 1 and 2, because
`cumcount() + 1` (line 186) numbers rows, not unique order ids — contrary
to the claim that all line items of an order share one ordinal. -/
theorem c1_counterexample :
    rowC1a.orderId = rowC1b.orderId ∧
    visitIdx dsC1 (0, rowC1a) = 1 ∧
    visitIdx dsC1 (1, rowC1b) = 2 ∧
    visitIdx dsC1 (0, rowC1a) ≠ visitIdx dsC1 (1, rowC1b) := by
  decide

/-- C1 (amended): the visit index `第幾次來` numbers each member's rows
(line items) individually: it is strictly increasing along the stable
sort order — by timestamp ascending (`NaT` last), with original row
position breaking exact ties — so each line item of a member, including
repeated line items of one order, gets its own strictly larger ordinal. -/
theorem visit_index_strict_mono (ds : Dataset) (i j : Nat) (ri rj : Row)
    (hi : (i, ri) ∈ ds.enum) (hb : beforeSM (i, ri) (j, rj)) :
    visitIdx ds (i, ri) < visitIdx ds (j, rj) := by
  unfold visitIdx
  refine Nat.add_lt_add_left ?_ 1
  refine length_filter_lt_length_filter (x := (i, ri)) hi ?_ ?_ ?_
  · intro a _ ha
    simp only [decide_eq_true_eq] at ha ⊢
    exact beforeSM_trans ha hb
  · simpa using beforeSM_irrefl (i, ri)
  · simpa using hb

/-- C1 amended-claim witness: in the two-line-item dataset the first row
precedes the second (equal timestamps, tie broken by row position), so
its visit index is strictly smaller. -/
theorem visit_index_strict_mono_witness :
    visitIdx dsC1 (0, rowC1a) < visitIdx dsC1 (1, rowC1b) :=
  visit_index_strict_mono dsC1 0 1 rowC1a rowC1b (by decide) (by decide)

/-! ## C2 — magic-number detection -/

/-- `pickFirstMin` returns `none` exactly on the empty selection. -/
theorem pickFirstMin_eq_none {l : List (Nat × ℚ)} :
    pickFirstMin l = none ↔ l = [] := by
  cases l with
  | nil => simp [pickFirstMin]
  | cons x xs =>
      simp only [pickFirstMin]
      cases pickFirstMin xs <;> simp

/-- The row `idxmin` picks is one of the selected rows. -/
theorem pickFirstMin_mem {l : List (Nat × ℚ)} {x : Nat × ℚ}
    (h : pickFirstMin l = some x) : x ∈ l := by
  induction l generalizing x with
  | nil => simp [pickFirstMin] at h
  | cons a as ih =>
      simp only [pickFirstMin] at h
      cases hrec : pickFirstMin as with
      | none => rw [hrec] at h; simp at h; simp [h]
      | some y =>
          rw [hrec] at h
          simp only [Option.some.injEq] at h
          by_cases hlt : y.2 < a.2
          · rw [if_pos hlt] at h
            subst h
            exact List.mem_cons_of_mem a (ih hrec)
          · rw [if_neg hlt] at h
            simp [← h]

/-- The row `idxmin` picks attains the minimum of the selection. -/
theorem pickFirstMin_le {l : List (Nat × ℚ)} {x : Nat × ℚ}
    (h : pickFirstMin l = some x) : ∀ z ∈ l, x.2 ≤ z.2 := by
  induction l generalizing x with
  | nil => simp [pickFirstMin] at h
  | cons a as ih =>
      simp only [pickFirstMin] at h
      cases hrec : pickFirstMin as with
      | none =>
          rw [hrec] at h
          simp only [Option.some.injEq] at h
          have hnil : as = [] := pickFirstMin_eq_none.mp hrec
          subst hnil
          subst h
          simp
      | some y =>
          rw [hrec] at h
          simp only [Option.some.injEq] at h
          intro z hz
          by_cases hlt : y.2 < a.2
          · rw [if_pos hlt] at h
            subst h
            rcases List.mem_cons.mp hz with rfl | hz
            · exact le_of_lt hlt
            · exact ih hrec z hz
          · rw [if_neg hlt] at h
            subst h
            rcases List.mem_cons.mp hz with rfl | hz
            · exact le_rfl
            · exact le_trans (not_lt.mp hlt) (ih hrec z hz)

/-- Among rows of equal minimal value, `idxmin` picks the earliest; when
the row keys are strictly increasing this is the smallest key. -/
theorem pickFirstMin_first {l : List (Nat × ℚ)} {x : Nat × ℚ}
    (hp : l.Pairwise (fun a b => a.1 < b.1))
    (h : pickFirstMin l = some x) : ∀ z ∈ l, z.2 = x.2 → x.1 ≤ z.1 := by
  induction l generalizing x with
  | nil => simp [pickFirstMin] at h
  | cons a as ih =>
      simp only [pickFirstMin] at h
      cases hrec : pickFirstMin as with
      | none =>
          rw [hrec] at h
          simp only [Option.some.injEq] at h
          have hnil : as = [] := pickFirstMin_eq_none.mp hrec
          subst hnil
          subst h
          intro z hz _
          rcases List.mem_cons.mp hz with rfl | hz
          · exact le_rfl
          · simp at hz
      | some y =>
          rw [hrec] at h
          simp only [Option.some.injEq] at h
          intro z hz hz2
          by_cases hlt : y.2 < a.2
          · rw [if_pos hlt] at h
            subst h
            rcases List.mem_cons.mp hz with rfl | hz
            · exact absurd (hz2 ▸ hlt) (lt_irrefl _)
            · exact ih (List.Pairwise.of_cons hp) hrec z hz hz2
          · rw [if_neg hlt] at h
            subst h
            rcases List.mem_cons.mp hz with rfl | hz
            · exact le_rfl
            · exact le_of_lt ((List.pairwise_cons.mp hp).1 z hz)

/-- The visit-index keys of the `第幾次來 >= 3` selection form a sublist
of the funnel's keys (generalized over the decline column). -/
theorem magicCandidates_keys_aux (l : List (Nat × ℚ)) (d : List (Option ℚ)) :
    (((l.zip d).filterMap (fun x =>
        match x.2 with
        | some e => if 3 ≤ x.1.1 then some (x.1.1, e) else none
        | none => none)).map Prod.fst).Sublist (l.map Prod.fst) := by
  induction l generalizing d with
  | nil => simp
  | cons a as ih =>
      cases d with
      | nil => simp
      | cons b bs =>
          rw [List.zip_cons_cons, List.filterMap_cons]
          cases b with
          | none => exact List.Sublist.cons _ (ih bs)
          | some e =>
              by_cases h3 : 3 ≤ a.1
              · simp only [if_pos h3]
                exact List.Sublist.cons₂ _ (ih bs)
              · simp only [if_neg h3]
                exact List.Sublist.cons _ (ih bs)

/-- The candidate keys inherit the funnel's strictly increasing order. -/
theorem magicCandidates_pairwise (funnel : List (Nat × ℚ))
    (h : (funnel.map Prod.fst).Pairwise (· < ·)) :
    (magicCandidates funnel).Pairwise (fun a b => a.1 < b.1) := by
  unfold magicCandidates withDeclines
  exact List.pairwise_map.mp
    (List.Pairwise.sublist
      (magicCandidates_keys_aux funnel (declines (funnel.map (·.2)))) h)

/-- Every candidate key passed the `第幾次來 >= 3` filter. -/
theorem magicCandidates_key_ge {funnel : List (Nat × ℚ)} {k : Nat} {d : ℚ}
    (h : (k, d) ∈ magicCandidates funnel) : 3 ≤ k := by
  unfold magicCandidates at h
  obtain ⟨x, -, hx⟩ := List.mem_filterMap.mp h
  cases hx2 : x.2 with
  | none => rw [hx2] at hx; simp at hx
  | some e =>
      rw [hx2] at hx
      dsimp only at hx
      by_cases h3 : 3 ≤ x.1.1
      · rw [if_pos h3] at hx
        simp only [Option.some.injEq, Prod.mk.injEq] at hx
        exact hx.1 ▸ h3
      · rw [if_neg h3] at hx
        simp at hx

/-- C2 (amended): with strictly increasing visit indices, the code shows
no magic number exactly when the funnel has at most 2 rows; whenever it
has more than 2 rows and some eligible decline exists — monotonically
steep curves included — it returns the visit index of the first eligible
row (index ≥ 3, non-`NaN` decline) whose absolute decline is minimal,
ties going to the smallest index. -/
theorem magic_number_amended (funnel : List (Nat × ℚ))
    (hinc : (funnel.map Prod.fst).Pairwise (· < ·)) :
    (funnel.length ≤ 2 → magicNumber funnel = none) ∧
    (2 < funnel.length → magicCandidates funnel ≠ [] →
      (magicNumber funnel).isSome = true) ∧
    (∀ k, magicNumber funnel = some k →
      3 ≤ k ∧ ∃ d, (k, d) ∈ magicCandidates funnel ∧
        ∀ j e, (j, e) ∈ magicCandidates funnel → d ≤ e ∧ (e = d → k ≤ j)) := by
  refine ⟨?_, ?_, ?_⟩
  · intro hlen
    unfold magicNumber
    rw [if_neg (by omega)]
  · intro hlen hne
    unfold magicNumber
    rw [if_pos hlen]
    cases hpick : pickFirstMin (magicCandidates funnel) with
    | none => exact absurd (pickFirstMin_eq_none.mp hpick) hne
    | some x => simp [hpick]
  · intro k hk
    unfold magicNumber at hk
    by_cases hlen : 2 < funnel.length
    · rw [if_pos hlen] at hk
      obtain ⟨x, hx, hxk⟩ := Option.map_eq_some'.mp hk
      subst hxk
      have hmem : (x.1, x.2) ∈ magicCandidates funnel := pickFirstMin_mem hx
      refine ⟨magicCandidates_key_ge hmem, x.2, hmem, ?_⟩
      intro j e hje
      refine ⟨pickFirstMin_le hx (j, e) hje, ?_⟩
      intro hed
      exact pickFirstMin_first (magicCandidates_pairwise funnel hinc) hx (j, e) hje hed
    · rw [if_neg hlen] at hk
      exact absurd hk (by simp)

/-- A survival curve that steepens monotonically: the successive declines
are 10, 20, 30 — the drop from each visit to the next keeps growing. -/
def steepFunnel : List (Nat × ℚ) := [(1, 100), (2, 90), (3, 70), (4, 40)]

/-- C2 counterexample: on a monotonically steep curve (declines strictly
increasing — the curve never flattens) the code still returns a magic
number, namely visit 3, instead of the "no magic number found" result the
claim promises. -/
theorem c2_counterexample :
    magicNumber steepFunnel = some 3 ∧
    declines (steepFunnel.map (·.2)) = [none, some 10, some 20, some 30] ∧
    ((10:ℚ) < 20 ∧ (20:ℚ) < 30) := by
  refine ⟨?_, ?_, by norm_num⟩
  · have hc : magicCandidates steepFunnel = [(3, 20), (4, 30)] := by
      unfold magicCandidates withDeclines steepFunnel declines
      norm_num [List.zipWith, List.zip_cons_cons, List.filterMap_cons]
    unfold magicNumber
    rw [if_pos (by norm_num [steepFunnel])]
    rw [hc]
    norm_num [pickFirstMin]
  · unfold steepFunnel declines
    norm_num [List.zipWith]

/-- C2 amended-claim witness: a concrete flattening funnel with more than
2 rows and a nonempty candidate list on which the detection succeeds. -/
theorem magic_number_amended_witness :
    (magicNumber [((1:Nat), (100:ℚ)), (2, 50), (3, 45), (4, 44)]).isSome = true :=
  (magic_number_amended [(1, 100), (2, 50), (3, 45), (4, 44)]
      (by norm_num)).2.1 (by norm_num)
    (by
      unfold magicCandidates withDeclines declines
      norm_num [List.zipWith, List.zip_cons_cons, List.filterMap_cons]
      simp)

/-! ## C3 / C10 — visit survival -/

/-- A visit index listed by the funnel has at least one member. -/
theorem memberCount_pos_of_mem_keys {ds : Dataset} {y k : Nat}
    (h : k ∈ funnelKeys ds y) : 0 < memberCount ds y k := by
  unfold funnelKeys at h
  obtain ⟨-, hp⟩ := List.mem_filter.mp h
  obtain ⟨p, hpm, hpk⟩ := List.any_eq_true.mp hp
  unfold memberCount
  rw [Finset.card_pos]
  refine ⟨p.2.member, ?_⟩
  unfold visitMembers
  rw [List.mem_toFinset]
  exact List.mem_map.mpr ⟨p, List.mem_filter.mpr ⟨hpm, hpk⟩, rfl⟩

/-- The funnel's visit indices are listed in strictly ascending order. -/
theorem funnelKeys_pairwise (ds : Dataset) (y : Nat) :
    (funnelKeys ds y).Pairwise (· < ·) := by
  unfold funnelKeys
  refine List.Pairwise.filter _ ?_
  exact List.pairwise_map.mpr ((List.pairwise_lt_range 10).imp (by omega))

/-- Rounding one hundred percent changes nothing. -/
theorem round1_100 : round1 100 = 100 := by
  norm_num [round1, roundHalfEven]

/-- C10: whenever the (`<= 10`-truncated) funnel is nonempty, its first
row — the smallest visit index present in the period, whether or not that
index is 1 — is the denominator of every rate, so its own survival rate
is exactly 100.0. -/
theorem funnel_first_rate_100 (ds : Dataset) (y : Nat)
    (h : visitFunnel ds y ≠ []) :
    ∃ k c rest, visitFunnel ds y = (k, c) :: rest ∧ 0 < c ∧
      (∀ j ∈ funnelKeys ds y, k ≤ j) ∧
      funnelRates ds y =
        some ((k, (100 : ℚ)) ::
          rest.map (fun p => (p.1, round1 ((p.2 : ℚ) / (c : ℚ) * 100)))) := by
  cases hk : funnelKeys ds y with
  | nil => exact absurd (by unfold visitFunnel; rw [hk]; rfl) h
  | cons k kt =>
      have hfun : visitFunnel ds y =
          (k, memberCount ds y k) :: kt.map (fun j => (j, memberCount ds y j)) := by
        unfold visitFunnel
        rw [hk, List.map_cons]
      have hkmem : k ∈ funnelKeys ds y := by rw [hk]; exact List.mem_cons_self k kt
      have hc : 0 < memberCount ds y k := memberCount_pos_of_mem_keys hkmem
      refine ⟨k, memberCount ds y k, kt.map (fun j => (j, memberCount ds y j)),
        hfun, hc, ?_, ?_⟩
      · intro j hj
        rcases List.mem_cons.mp hj with rfl | hj
        · exact le_rfl
        · have hp := funnelKeys_pairwise ds y
          rw [hk] at hp
          exact le_of_lt ((List.pairwise_cons.mp hp).1 j hj)
      · unfold funnelRates
        rw [hfun]
        have hcq : ((memberCount ds y k : ℚ) / (memberCount ds y k : ℚ) * 100) = 100 := by
          rw [div_self (by exact_mod_cast hc.ne')]
          norm_num
        simp only [List.map_cons, hcq, round1_100]

/-- A dataset whose single member pays one visit in 2024. -/
def dsW10 : Dataset := [⟨"O1", some ⟨2024, 1, 1⟩, "A", "P", 50⟩]

/-- C10 witness: the one-visit dataset has a nonempty 2024 funnel, and
the theorem instantiates on it. -/
theorem funnel_first_rate_100_witness :
    ∃ k c rest, visitFunnel dsW10 2024 = (k, c) :: rest ∧ 0 < c ∧
      (∀ j ∈ funnelKeys dsW10 2024, k ≤ j) ∧
      funnelRates dsW10 2024 =
        some ((k, (100 : ℚ)) ::
          rest.map (fun p => (p.1, round1 ((p.2 : ℚ) / (c : ℚ) * 100)))) :=
  funnel_first_rate_100 dsW10 2024 (by decide)

/-- A member whose first visit falls in 2023 and whose second falls in
2024: in the 2024 funnel no row has visit index 1. -/
def dsC3 : Dataset :=
  [⟨"O1", some ⟨2023, 5, 1⟩, "A", "P", 100⟩,
   ⟨"O2", some ⟨2024, 5, 1⟩, "A", "P", 100⟩]

/-- C3 counterexample: in 2024 the count of customers at visit index 1 is
zero, yet the code neither fails with `InsufficientDataError` nor divides
by count(1): it produces a valid funnel whose only row is visit 2 at rate
100, the denominator being the count at the smallest present index. -/
theorem c3_counterexample :
    memberCount dsC3 2024 1 = 0 ∧
    funnelRates dsC3 2024 = some [(2, 100)] := by
  refine ⟨by decide, ?_⟩
  have h : visitFunnel dsC3 2024 = [(2, 1)] := by decide
  unfold funnelRates
  rw [h]
  norm_num [round1, roundHalfEven]

/-- C3 (amended): the funnel lists, in ascending order, exactly the visit
indices `k <= 10` attained by some row of the period (absent indices are
omitted rather than counted as 0, and indices above 10 are cut); each row
carries the positive count of distinct customers whose k-th visit falls
in the period; the survival rate divides by the first listed row's count
(the smallest present index, not necessarily 1); an empty funnel makes
the rate computation fail with an untyped `IndexError`, no
`InsufficientDataError` kind exists. -/
theorem visit_survival_amended (ds : Dataset) (y : Nat) :
    (visitFunnel ds y = [] → funnelRates ds y = none) ∧
    (∀ k, k ∈ funnelKeys ds y ↔
      (1 ≤ k ∧ k ≤ 10 ∧ ∃ p ∈ yearRowsE ds y, visitIdx ds p = k)) ∧
    (∀ k c, (k, c) ∈ visitFunnel ds y → c = memberCount ds y k ∧ 0 < c) ∧
    (∀ k0 c0 rest, visitFunnel ds y = (k0, c0) :: rest →
      funnelRates ds y = some (((k0, c0) :: rest).map
        (fun p => (p.1, round1 ((p.2 : ℚ) / (c0 : ℚ) * 100))))) := by
  refine ⟨?_, ?_, ?_, ?_⟩
  · intro h
    unfold funnelRates
    rw [h]
  · intro k
    unfold funnelKeys
    rw [List.mem_filter]
    constructor
    · rintro ⟨hk, hany⟩
      obtain ⟨a, ha, hak⟩ := List.mem_map.mp hk
      have ha10 := List.mem_range.mp ha
      obtain ⟨p, hpm, hpk⟩ := List.any_eq_true.mp hany
      exact ⟨by omega, by omega, p, hpm, by simpa using hpk⟩
    · rintro ⟨h1, h10, p, hpm, hpk⟩
      refine ⟨List.mem_map.mpr ⟨k - 1, List.mem_range.mpr (by omega), by omega⟩, ?_⟩
      exact List.any_eq_true.mpr ⟨p, hpm, by simpa using hpk⟩
  · intro k c hkc
    obtain ⟨j, hj, hjk⟩ := List.mem_map.mp hkc
    obtain ⟨rfl, rfl⟩ := Prod.mk.injEq .. ▸ hjk
    exact ⟨rfl, memberCount_pos_of_mem_keys hj⟩
  · intro k0 c0 rest h
    unfold funnelRates
    rw [h]

/-- A member with one 2023 visit and two 2024 visits. -/
def dsW3 : Dataset :=
  [⟨"B1", some ⟨2023, 2, 2⟩, "B", "P", 10⟩,
   ⟨"B2", some ⟨2024, 2, 2⟩, "B", "P", 20⟩,
   ⟨"B3", some ⟨2024, 3, 3⟩, "B", "P", 30⟩]

/-- C3 amended-claim witness: on the three-row dataset the 2024 funnel is
`[(2, 1), (3, 1)]` and the rate formula divides by the first row's count. -/
theorem visit_survival_amended_witness :
    funnelRates dsW3 2024 = some ((((2:Nat), (1:Nat)) :: [((3:Nat), (1:Nat))]).map
      (fun p => (p.1, round1 ((p.2 : ℚ) / (((1:Nat) : ℚ)) * 100)))) :=
  (visit_survival_amended dsW3 2024).2.2.2 2 1 [(3, 1)] (by decide)

/-! ## C4 — BCG product classification -/

/-- Membership in the surviving product set spelled out. -/
theorem mem_survivors {ds : Dataset} {y : Nat} {p : String} :
    p ∈ survivors ds y ↔ p ∈ periodProducts ds y ∧ 5 ≤ productOrders ds y p := by
  unfold survivors
  exact Finset.mem_filter

/-- Dropping all rows of sub-threshold products leaves each surviving
product's period rows unchanged. -/
theorem bcg_filter_rows (ds : Dataset) (y : Nat) {p : String}
    (hp : 5 ≤ productOrders ds y p) :
    (yearRows (ds.filter (fun r => decide (5 ≤ productOrders ds y r.product))) y).filter
        (fun r => r.product == p) =
      (yearRows ds y).filter (fun r => r.product == p) := by
  unfold yearRows
  simp only [List.filter_filter]
  apply List.filter_congr
  intro r _
  by_cases hrp : r.product = p
  · simp [hrp, hp]
  · have hb : (r.product == p) = false := by simpa using hrp
    simp [hb]

/-- Sub-threshold-row removal keeps surviving products' order counts. -/
theorem bcg_orders_eq (ds : Dataset) (y : Nat) {p : String}
    (hp : 5 ≤ productOrders ds y p) :
    productOrders (ds.filter (fun r => decide (5 ≤ productOrders ds y r.product))) y p
      = productOrders ds y p := by
  show (((yearRows (ds.filter (fun r => decide (5 ≤ productOrders ds y r.product))) y).filter
      (fun r => r.product == p)).map (·.orderId)).toFinset.card = productOrders ds y p
  rw [bcg_filter_rows ds y hp]
  rfl

/-- Sub-threshold-row removal keeps surviving products' revenue. -/
theorem bcg_revenue_eq (ds : Dataset) (y : Nat) {p : String}
    (hp : 5 ≤ productOrders ds y p) :
    productRevenue (ds.filter (fun r => decide (5 ≤ productOrders ds y r.product))) y p
      = productRevenue ds y p := by
  show (((yearRows (ds.filter (fun r => decide (5 ≤ productOrders ds y r.product))) y).filter
      (fun r => r.product == p)).map (·.amount)).sum = productRevenue ds y p
  rw [bcg_filter_rows ds y hp]
  rfl

/-- The products present after sub-threshold-row removal are the
survivors of the original dataset. -/
theorem bcg_products (ds : Dataset) (y : Nat) :
    periodProducts (ds.filter (fun r => decide (5 ≤ productOrders ds y r.product))) y
      = survivors ds y := by
  ext p
  rw [mem_survivors]
  unfold periodProducts yearRows
  simp only [List.mem_toFinset, List.mem_map, List.mem_filter]
  constructor
  · rintro ⟨r, ⟨⟨hr, hsurv⟩, hy⟩, rfl⟩
    rw [decide_eq_true_eq] at hsurv
    exact ⟨⟨r, ⟨hr, hy⟩, rfl⟩, hsurv⟩
  · rintro ⟨⟨r, ⟨hr, hy⟩, rfl⟩, h5⟩
    exact ⟨r, ⟨⟨hr, by simpa using h5⟩, hy⟩, rfl⟩

/-- Sub-threshold-row removal leaves the surviving product set fixed. -/
theorem bcg_survivors (ds : Dataset) (y : Nat) :
    survivors (ds.filter (fun r => decide (5 ≤ productOrders ds y r.product))) y
      = survivors ds y := by
  ext p
  rw [mem_survivors, bcg_products]
  constructor
  · exact fun h => h.1
  · intro h
    have h5 := (mem_survivors.mp h).2
    exact ⟨h, by rw [bcg_orders_eq ds y h5]; exact h5⟩

/-- Sub-threshold-row removal leaves the order-count median fixed. -/
theorem bcg_medianOrders (ds : Dataset) (y : Nat) :
    medianOrders (ds.filter (fun r => decide (5 ≤ productOrders ds y r.product))) y
      = medianOrders ds y := by
  unfold medianOrders
  rw [bcg_survivors]
  congr 1
  apply List.map_congr_left
  intro p hp
  have h5 := (mem_survivors.mp ((Finset.mem_sort _).mp hp)).2
  rw [bcg_orders_eq ds y h5]

/-- Sub-threshold-row removal leaves the revenue median fixed. -/
theorem bcg_medianRevenue (ds : Dataset) (y : Nat) :
    medianRevenue (ds.filter (fun r => decide (5 ≤ productOrders ds y r.product))) y
      = medianRevenue ds y := by
  unfold medianRevenue
  rw [bcg_survivors]
  congr 1
  apply List.map_congr_left
  intro p hp
  have h5 := (mem_survivors.mp ((Finset.mem_sort _).mp hp)).2
  rw [bcg_revenue_eq ds y h5]

/-- C4 (amended): the BCG classifier admits exactly the products with at
least 5 distinct period orders (the threshold of line 423 is 5, not the
claimed `min_orders = 3`), classifies each against the medians of the
filtered set with `>=` on the high side, and — the survivorship-bias
control — its output does not change when all rows of sub-threshold
products are removed up front (medians are recomputed after filtering). -/
theorem classify_bcg_amended (ds : Dataset) (y : Nat) :
    classifyBCG (ds.filter (fun r => decide (5 ≤ productOrders ds y r.product))) y
        = classifyBCG ds y ∧
    ∀ p q, (p, q) ∈ classifyBCG ds y →
      5 ≤ productOrders ds y p ∧
      q = classifyProduct (productOrders ds y p) (productRevenue ds y p)
            (medianOrders ds y) (medianRevenue ds y) := by
  constructor
  · unfold classifyBCG
    rw [bcg_survivors, bcg_medianOrders, bcg_medianRevenue]
    apply Finset.image_congr
    intro p hp
    rw [Finset.mem_coe] at hp
    have h5 := (mem_survivors.mp hp).2
    dsimp only
    rw [bcg_orders_eq ds y h5, bcg_revenue_eq ds y h5]
  · intro p q hpq
    unfold classifyBCG at hpq
    obtain ⟨a, ha, hae⟩ := Finset.mem_image.mp hpq
    obtain ⟨rfl, rfl⟩ := Prod.mk.injEq .. ▸ hae
    exact ⟨(mem_survivors.mp ha).2, rfl⟩

/-- One product with exactly 3 distinct orders in 2024. -/
def dsC4 : Dataset :=
  [⟨"K1", some ⟨2024, 1, 1⟩, "A", "P", 100⟩,
   ⟨"K2", some ⟨2024, 2, 1⟩, "A", "P", 100⟩,
   ⟨"K3", some ⟨2024, 3, 1⟩, "A", "P", 100⟩]

/-- C4 counterexample: a product with 3 distinct period orders — which
the claimed default `min_orders = 3` would retain and classify — is
dropped by the code's `訂單數 >= 5` filter, leaving the classification
empty. -/
theorem c4_counterexample :
    productOrders dsC4 2024 "P" = 3 ∧ classifyBCG dsC4 2024 = ∅ := by
  refine ⟨by decide, ?_⟩
  have h : survivors dsC4 2024 = ∅ := by decide
  unfold classifyBCG
  rw [h, Finset.image_empty]

/-- One product with 5 distinct orders in 2024, revenue 500. -/
def dsW4 : Dataset :=
  [⟨"K1", some ⟨2024, 1, 1⟩, "A", "P", 100⟩,
   ⟨"K2", some ⟨2024, 2, 1⟩, "A", "P", 100⟩,
   ⟨"K3", some ⟨2024, 3, 1⟩, "A", "P", 100⟩,
   ⟨"K4", some ⟨2024, 4, 1⟩, "A", "P", 100⟩,
   ⟨"K5", some ⟨2024, 5, 1⟩, "A", "P", 100⟩]

/-- C4 amended-claim witness: on the five-order dataset the filter
invariance holds and the single surviving product is a star (it meets
both of its own medians). -/
theorem classify_bcg_amended_witness :
    classifyBCG (dsW4.filter (fun r => decide (5 ≤ productOrders dsW4 2024 r.product))) 2024
        = classifyBCG dsW4 2024 ∧
    (5 ≤ productOrders dsW4 2024 "P" ∧
      Quadrant.star = classifyProduct (productOrders dsW4 2024 "P")
        (productRevenue dsW4 2024 "P") (medianOrders dsW4 2024) (medianRevenue dsW4 2024)) :=
  ⟨(classify_bcg_amended dsW4 2024).1,
   (classify_bcg_amended dsW4 2024).2 "P" Quadrant.star (by
    have hs : survivors dsW4 2024 = {"P"} := by decide
    unfold classifyBCG
    rw [hs, Finset.image_singleton, Finset.mem_singleton]
    have hmo : medianOrders dsW4 2024 = 5 := by
      unfold medianOrders
      rw [hs, Finset.sort_singleton]
      norm_num [medianQ, sortQ, insertLe]
      decide
    have hmr : medianRevenue dsW4 2024 = 500 := by
      unfold medianRevenue
      rw [hs, Finset.sort_singleton]
      norm_num [medianQ, sortQ, insertLe, productRevenue, yearRows, yearOf, dsW4]
    have hpo : productOrders dsW4 2024 "P" = 5 := by decide
    have hpr : productRevenue dsW4 2024 "P" = 500 := by
      norm_num [productRevenue, yearRows, yearOf, dsW4]
    rw [hmo, hmr, hpo, hpr]
    norm_num [classifyProduct])⟩

/-! ## C6 — empty period -/

/-- A dataset whose only row lies in 2024, so the period 2023 has zero
active customers. -/
def dsC6 : Dataset := [⟨"O1", some ⟨2024, 1, 1⟩, "A", "P", 100⟩]

/-- C6: for a period with zero active customers the bucket sequence
itself does come out empty without error — but the insight code that
runs right after it (line 153) evaluates `.iloc[0]` on that empty
selection, which raises `IndexError` (`none` here) instead of completing
without an error as the claim and spec require. -/
theorem freq_empty_period_evaluation :
    freqDistDisplay dsC6 2023 = [] ∧ oneTimer dsC6 2023 = none := by
  constructor
  · decide
  · decide

/-! ## C7 — bucket conservation -/

/-- Summing fiber cardinalities over a duplicate-free list of key values
counts the elements whose key lies in the list. -/
theorem card_fiber_sum (S : Finset String) (c : String → Nat) :
    ∀ V : List Nat, V.Nodup →
      (V.map (fun v => (S.filter (fun m => c m = v)).card)).sum
        = (S.filter (fun m => c m ∈ V)).card := by
  intro V
  induction V with
  | nil => simp
  | cons v vs ih =>
      intro hnd
      rw [List.map_cons, List.sum_cons, ih (List.Nodup.of_cons hnd)]
      have hsplit : S.filter (fun m => c m ∈ v :: vs)
          = S.filter (fun m => c m = v) ∪ S.filter (fun m => c m ∈ vs) := by
        rw [← Finset.filter_or]
        apply Finset.filter_congr
        intro m _
        simp [List.mem_cons]
      have hdisj : Disjoint (S.filter (fun m => c m = v))
          (S.filter (fun m => c m ∈ vs)) := by
        rw [Finset.disjoint_left]
        intro a ha hb
        have h1 := (Finset.mem_filter.mp ha).2
        have h2 := (Finset.mem_filter.mp hb).2
        exact (List.nodup_cons.mp hnd).1 (h1 ▸ h2)
      rw [hsplit, Finset.card_union_of_disjoint hdisj]

/-- Summing fiber sums over a duplicate-free list of key values sums the
elements whose key lies in the list. -/
theorem sum_fiber_sum (S : Finset String) (c : String → Nat) (f : String → ℚ) :
    ∀ V : List Nat, V.Nodup →
      (V.map (fun v => ∑ m ∈ S.filter (fun m => c m = v), f m)).sum
        = ∑ m ∈ S.filter (fun m => c m ∈ V), f m := by
  intro V
  induction V with
  | nil => simp
  | cons v vs ih =>
      intro hnd
      rw [List.map_cons, List.sum_cons, ih (List.Nodup.of_cons hnd)]
      have hsplit : S.filter (fun m => c m ∈ v :: vs)
          = S.filter (fun m => c m = v) ∪ S.filter (fun m => c m ∈ vs) := by
        rw [← Finset.filter_or]
        apply Finset.filter_congr
        intro m _
        simp [List.mem_cons]
      have hdisj : Disjoint (S.filter (fun m => c m = v))
          (S.filter (fun m => c m ∈ vs)) := by
        rw [Finset.disjoint_left]
        intro a ha hb
        have h1 := (Finset.mem_filter.mp ha).2
        have h2 := (Finset.mem_filter.mp hb).2
        exact (List.nodup_cons.mp hnd).1 (h1 ▸ h2)
      rw [hsplit, Finset.sum_union hdisj]

/-- Dropping value keys whose summand vanishes does not change a sum. -/
theorem sum_map_filter_eq {M : Type} [AddCommMonoid M] (l : List Nat)
    (P : Nat → Bool) (g : Nat → M)
    (h : ∀ v ∈ l, P v = false → g v = 0) :
    ((l.filter P).map g).sum = (l.map g).sum := by
  induction l with
  | nil => simp
  | cons a t ih =>
      rw [List.filter_cons]
      have iht := ih (fun v hv => h v (List.mem_cons_of_mem a hv))
      by_cases hP : P a = true
      · rw [if_pos hP, List.map_cons, List.sum_cons, List.map_cons, List.sum_cons, iht]
      · rw [if_neg hP, List.map_cons, List.sum_cons, iht,
          h a (List.mem_cons_self a t) (Bool.of_not_eq_true hP), zero_add]

/-- Grouping a row list by member and summing each member's amounts
reproduces the total amount of the list. -/
theorem sum_fiber_rows (l : List Row) :
    (∑ m ∈ (l.map (·.member)).toFinset,
        ((l.filter (fun r => r.member == m)).map (·.amount)).sum)
      = (l.map (·.amount)).sum := by
  induction l with
  | nil => simp
  | cons r t ih =>
      have hpt : ∀ m : String,
          (((r :: t).filter (fun x => x.member == m)).map (·.amount)).sum
            = (if m = r.member then r.amount else 0)
              + ((t.filter (fun x => x.member == m)).map (·.amount)).sum := by
        intro m
        rw [List.filter_cons]
        by_cases hm : r.member = m
        · rw [if_pos (by simpa using hm), List.map_cons, List.sum_cons,
            if_pos hm.symm]
        · rw [if_neg (by simpa using hm), if_neg (fun hc => hm hc.symm), zero_add]
      rw [List.map_cons, List.toFinset_cons, List.map_cons, List.sum_cons]
      rw [Finset.sum_congr rfl (fun m _ => hpt m), Finset.sum_add_distrib]
      by_cases hmem : r.member ∈ (t.map (·.member)).toFinset
      · rw [Finset.insert_eq_self.mpr hmem, ih]
        rw [Finset.sum_ite_eq' (((t.map (·.member)).toFinset)) r.member (fun _ => r.amount)]
        rw [if_pos hmem]
      · rw [Finset.sum_insert hmem, Finset.sum_insert hmem, ih]
        have hz : ((t.filter (fun x => x.member == r.member)).map (·.amount)).sum = 0 := by
          have hnil : t.filter (fun x => x.member == r.member) = [] := by
            rw [List.filter_eq_nil_iff]
            intro a ha hc
            exact hmem (List.mem_toFinset.mpr
              (List.mem_map.mpr ⟨a, ha, by simpa using hc⟩))
          rw [hnil]
          rfl
        rw [hz]
        rw [Finset.sum_ite_eq' (((t.map (·.member)).toFinset)) r.member (fun _ => r.amount)]
        rw [if_neg hmem, if_pos rfl]
        ring

/-- An active member of a period has at least one distinct order there. -/
theorem memberOrderCount_pos {ds : Dataset} {y : Nat} {m : String}
    (h : m ∈ activeMembers ds y) : 1 ≤ memberOrderCount ds y m := by
  unfold activeMembers at h
  rw [List.mem_toFinset] at h
  obtain ⟨r, hr, rfl⟩ := List.mem_map.mp h
  unfold memberOrderCount
  exact Finset.card_pos.mpr ⟨r.orderId, List.mem_toFinset.mpr
    (List.mem_map.mpr ⟨r, List.mem_filter.mpr ⟨hr, by simp⟩, rfl⟩)⟩

/-- The bucket labels `1..10` are duplicate-free. -/
theorem rangeTen_nodup : (((List.range 10).map (· + 1))).Nodup :=
  List.Nodup.map (fun a b h => by omega) (List.nodup_range 10)

/-- The displayed bucket head counts sum to the number of distinct
members active in the period. -/
theorem freq_display_members_sum (ds : Dataset) (y : Nat) :
    ((freqDistDisplay ds y).map (·.members)).sum = (activeMembers ds y).card := by
  have hP : ∀ v ∈ (List.range 10).map (· + 1),
      (decide ((bucketMembers ds y v).card ≠ 0)) = false →
      (bucketMembers ds y v).card = 0 := by
    intro v _ hv
    simpa using hv
  have hmain : ((((List.range 10).map (· + 1)).filter
        (fun v => decide ((bucketMembers ds y v).card ≠ 0))).map
      (fun v => (bucketMembers ds y v).card)).sum
      = ((activeMembers ds y).filter (fun m => memberOrderCount ds y m ≤ 10)).card := by
    rw [sum_map_filter_eq _ _ _ hP]
    rw [show (fun v => (bucketMembers ds y v).card)
        = fun v => ((activeMembers ds y).filter
            (fun m => memberOrderCount ds y m = v)).card from rfl]
    rw [card_fiber_sum (activeMembers ds y) (memberOrderCount ds y)
      ((List.range 10).map (· + 1)) rangeTen_nodup]
    apply congrArg
    apply Finset.filter_congr
    intro m hm
    have h1 := memberOrderCount_pos hm
    simp only [List.mem_map, List.mem_range]
    constructor
    · rintro ⟨a, ha, hav⟩
      omega
    · intro h10
      exact ⟨memberOrderCount ds y m - 1, by omega, by omega⟩
  have hover : ((if (overMembers ds y).card ≠ 0 then
        [(⟨">10", (overMembers ds y).card, overRevenue ds y⟩ : FreqBucket)] else []).map
      (·.members)).sum = (overMembers ds y).card := by
    by_cases hc : (overMembers ds y).card ≠ 0
    · rw [if_pos hc]
      simp
    · rw [if_neg hc]
      push_neg at hc
      simp [hc]
  unfold freqDistDisplay
  rw [List.map_append, List.sum_append, List.map_map]
  rw [show ((·.members) ∘ (fun v => (⟨toString v, (bucketMembers ds y v).card,
      bucketRevenue ds y v⟩ : FreqBucket))) = fun v => (bucketMembers ds y v).card from rfl]
  rw [hmain, hover]
  have hneg : (activeMembers ds y).filter (fun m => ¬ memberOrderCount ds y m ≤ 10)
      = overMembers ds y := by
    unfold overMembers
    apply Finset.filter_congr
    intro m _
    simp [not_le]
  rw [← hneg]
  exact Finset.filter_card_add_filter_neg_card_eq_card
    (fun m => memberOrderCount ds y m ≤ 10)

/-- The displayed bucket revenue sums add up to the period's revenue. -/
theorem freq_display_revenue_sum (ds : Dataset) (y : Nat) :
    ((freqDistDisplay ds y).map (·.revenue)).sum
      = ((yearRows ds y).map (·.amount)).sum := by
  have hP : ∀ v ∈ (List.range 10).map (· + 1),
      (decide ((bucketMembers ds y v).card ≠ 0)) = false →
      bucketRevenue ds y v = 0 := by
    intro v _ hv
    have h0 : (bucketMembers ds y v).card = 0 := by simpa using hv
    unfold bucketRevenue
    rw [Finset.card_eq_zero.mp h0]
    rfl
  have hmain : ((((List.range 10).map (· + 1)).filter
        (fun v => decide ((bucketMembers ds y v).card ≠ 0))).map
      (fun v => bucketRevenue ds y v)).sum
      = ∑ m ∈ (activeMembers ds y).filter (fun m => memberOrderCount ds y m ≤ 10),
          memberRevenue ds y m := by
    rw [sum_map_filter_eq _ _ _ hP]
    rw [show bucketRevenue ds y
        = fun v => ∑ m ∈ (activeMembers ds y).filter
            (fun m => memberOrderCount ds y m = v), memberRevenue ds y m from rfl]
    rw [sum_fiber_sum (activeMembers ds y) (memberOrderCount ds y)
      (memberRevenue ds y) ((List.range 10).map (· + 1)) rangeTen_nodup]
    apply Finset.sum_congr
    · apply Finset.filter_congr
      intro m hm
      have h1 := memberOrderCount_pos hm
      simp only [List.mem_map, List.mem_range]
      constructor
      · rintro ⟨a, ha, hav⟩
        omega
      · intro h10
        exact ⟨memberOrderCount ds y m - 1, by omega, by omega⟩
    · intro m _
      rfl
  have hover : ((if (overMembers ds y).card ≠ 0 then
        [(⟨">10", (overMembers ds y).card, overRevenue ds y⟩ : FreqBucket)] else []).map
      (·.revenue)).sum = ∑ m ∈ overMembers ds y, memberRevenue ds y m := by
    by_cases hc : (overMembers ds y).card ≠ 0
    · rw [if_pos hc]
      simp [overRevenue]
    · rw [if_neg hc]
      push_neg at hc
      rw [Finset.card_eq_zero.mp hc]
      rfl
  unfold freqDistDisplay
  rw [List.map_append, List.sum_append, List.map_map]
  rw [show ((·.revenue) ∘ (fun v => (⟨toString v, (bucketMembers ds y v).card,
      bucketRevenue ds y v⟩ : FreqBucket))) = fun v => bucketRevenue ds y v from rfl]
  rw [hmain, hover]
  have hneg : (activeMembers ds y).filter (fun m => ¬ memberOrderCount ds y m ≤ 10)
      = overMembers ds y := by
    unfold overMembers
    apply Finset.filter_congr
    intro m _
    simp [not_le]
  rw [← hneg]
  rw [Finset.sum_filter_add_sum_filter_not (activeMembers ds y)
    (fun m => memberOrderCount ds y m ≤ 10) (memberRevenue ds y)]
  exact sum_fiber_rows (yearRows ds y)

/-- C7: for every dataset and period, the displayed bucket head counts
(exact buckets `1..10` plus the `>10` overflow row) sum to the number of
distinct active members, the bucket revenues sum to the period's total
revenue, and — whenever the period has any member — the member shares
derived against the period total sum to exactly 100 percent. -/
theorem freq_buckets_conservation (ds : Dataset) (y : Nat) :
    ((freqDistDisplay ds y).map (·.members)).sum = (activeMembers ds y).card ∧
    ((freqDistDisplay ds y).map (·.revenue)).sum
      = ((yearRows ds y).map (·.amount)).sum ∧
    ((activeMembers ds y).card ≠ 0 →
      ((freqDistDisplay ds y).map
        (fun b => (b.members : ℚ) / ((activeMembers ds y).card : ℚ) * 100)).sum
        = 100) := by
  refine ⟨freq_display_members_sum ds y, freq_display_revenue_sum ds y, ?_⟩
  intro hA
  have h3 : ∀ b ∈ freqDistDisplay ds y,
      (b.members : ℚ) / ((activeMembers ds y).card : ℚ) * 100
        = (b.members : ℚ) * (100 / ((activeMembers ds y).card : ℚ)) := by
    intro b _
    ring
  rw [List.map_congr_left h3]
  rw [List.sum_map_mul_right (freqDistDisplay ds y) (fun b => (b.members : ℚ))
    (100 / ((activeMembers ds y).card : ℚ))]
  have h2 : ((freqDistDisplay ds y).map (fun b => (b.members : ℚ))).sum
      = ((((freqDistDisplay ds y).map (·.members)).sum : Nat) : ℚ) := by
    rw [Nat.cast_list_sum, List.map_map]
    rfl
  rw [h2, freq_display_members_sum ds y]
  have hAq : ((activeMembers ds y).card : ℚ) ≠ 0 := Nat.cast_ne_zero.mpr hA
  field_simp

/-- Two members, one 2024 order each. -/
def dsW7 : Dataset :=
  [⟨"O1", some ⟨2024, 1, 1⟩, "A", "P", 100⟩,
   ⟨"O2", some ⟨2024, 2, 1⟩, "B", "P", 300⟩]

/-- C7 witness: the two-member dataset has a nonzero active count, and
both conservation laws and the 100-percent share identity instantiate. -/
theorem freq_buckets_conservation_witness :
    ((freqDistDisplay dsW7 2024).map (·.members)).sum
      = (activeMembers dsW7 2024).card ∧
    ((freqDistDisplay dsW7 2024).map
      (fun b => (b.members : ℚ) / ((activeMembers dsW7 2024).card : ℚ) * 100)).sum
      = 100 :=
  ⟨(freq_buckets_conservation dsW7 2024).1,
   (freq_buckets_conservation dsW7 2024).2.2 (by decide)⟩

/-! ## C8 — ingestion errors -/

/-- The full required header of the spec. -/
def fullCols : List String := ["訂單號碼", "訂單時間", "會員", "品項", "總價"]

/-- A single well-formed row used in the C8 counterexample. -/
def rowC8 : Row := ⟨"O1", some ⟨2024, 1, 1⟩, "A", "P", 100⟩

/-- C8 counterexample: a zero-row merged table with the full header
passes preprocessing and yields an empty dataset — no
`EmptyDatasetError` is raised; and a table missing the required columns
品項 and 總價 also passes preprocessing — no schema check guards them
(they only blow up, untyped, deep inside later analysis code). -/
theorem c8_counterexample :
    preprocess ⟨fullCols, []⟩ = .ok [] ∧
    preprocess ⟨["訂單時間", "會員", "訂單號碼"], [rowC8]⟩ = .ok [rowC8] := by
  constructor <;> rfl

/-- C8 (amended): preprocessing aborts — with an untyped `KeyError`; no
`SchemaError` or `EmptyDatasetError` kind exists — exactly when one of
the three columns it touches (訂單時間, 會員, 訂單號碼) is missing from
the merged table; a missing 品項 or 總價 column and a zero-row merged
table are not rejected: the row list, empty or not, passes through. -/
theorem preprocess_schema_amended (t : RawTable) :
    ((∃ e, preprocess t = .error e) ↔
      ("訂單時間" ∉ t.cols ∨ "會員" ∉ t.cols ∨ "訂單號碼" ∉ t.cols)) ∧
    (("訂單時間" ∈ t.cols ∧ "會員" ∈ t.cols ∧ "訂單號碼" ∈ t.cols) →
      preprocess t = .ok t.rows) := by
  unfold preprocess
  by_cases h1 : "訂單時間" ∈ t.cols
  · rw [if_pos h1]
    by_cases h2 : "會員" ∈ t.cols
    · rw [if_pos h2]
      by_cases h3 : "訂單號碼" ∈ t.cols
      · rw [if_pos h3]
        simp [h1, h2, h3]
      · rw [if_neg h3]
        simp [h1, h2, h3]
    · rw [if_neg h2]
      simp [h1, h2]
  · rw [if_neg h1]
    simp [h1]

/-- C8 amended-claim witness: the complete header with zero rows is let
through as an empty dataset. -/
theorem preprocess_schema_amended_witness :
    preprocess ⟨["品項", "總價", "訂單時間", "會員", "訂單號碼"], []⟩ = .ok [] :=
  (preprocess_schema_amended ⟨["品項", "總價", "訂單時間", "會員", "訂單號碼"], []⟩).2
    ⟨by decide, by decide, by decide⟩

/-! ## C9 — unparsable timestamps -/

/-- C9: a row whose timestamp failed to parse (`NaT`) is kept but gets a
sentinel period (`年份 = NaN`): appending it changes no year filter and
no period-scoped member set, while the customer's lifetime distinct
order set does absorb its order id. -/
theorem unparsable_timestamp_policy (ds : Dataset) (r : Row)
    (hr : r.time = none) :
    (∀ y, yearRows (ds ++ [r]) y = yearRows ds y) ∧
    (∀ y, activeMembers (ds ++ [r]) y = activeMembers ds y) ∧
    lifetimeOrders (ds ++ [r]) r.member
      = insert r.orderId (lifetimeOrders ds r.member) := by
  have hy : ∀ y : Nat, (yearOf r == some y) = false := by
    intro y
    unfold yearOf
    rw [hr]
    rfl
  have hyr : ∀ y, yearRows (ds ++ [r]) y = yearRows ds y := by
    intro y
    unfold yearRows
    rw [List.filter_append]
    simp [hy y]
  refine ⟨hyr, ?_, ?_⟩
  · intro y
    unfold activeMembers
    rw [hyr y]
  · unfold lifetimeOrders
    rw [List.filter_append, List.map_append, List.toFinset_append]
    have hflt : [r].filter (fun x => x.member == r.member) = [r] := by simp
    rw [hflt]
    rw [show (([r].map (·.orderId)).toFinset) = {r.orderId} from rfl]
    rw [Finset.union_comm]
    exact (Finset.insert_eq r.orderId _).symm

/-- A row with an unparsable timestamp. -/
def rowC9 : Row := ⟨"X1", none, "C", "P", 77⟩

/-- C9 witness: appending the `NaT` row to the two-member dataset leaves
the 2024 filter untouched and adds its order to the lifetime set. -/
theorem unparsable_timestamp_policy_witness :
    yearRows (dsW7 ++ [rowC9]) 2024 = yearRows dsW7 2024 ∧
    lifetimeOrders (dsW7 ++ [rowC9]) rowC9.member
      = insert rowC9.orderId (lifetimeOrders dsW7 rowC9.member) :=
  ⟨(unparsable_timestamp_policy dsW7 rowC9 rfl).1 2024,
   (unparsable_timestamp_policy dsW7 rowC9 rfl).2.2⟩

/-! ## C5 — RFM scorer (spec-modelled)

No RFM scoring exists in `src/app.py`: the tab titled
`客群健康度雷達 (RFM Analysis)` (lines 489-561) only pivots the
pre-existing `分類` and `客群狀態` columns and computes no
`r_score`/`f_score`/`m_score`. The definitions below are therefore
modelled from the spec (§4.4 `score_rfm`), not from the source. -/

/-- Modelled from the spec: the distinct customers of the dataset (the
unit of RFM scoring); missing from the source. -/
def customersL (ds : Dataset) : List String := (ds.map (·.member)).dedup

/-- Modelled from the spec: a customer's most recent parsed purchase
time, `none` when the customer has no parsed timestamp; missing from the
source. -/
def lastPurchase (ds : Dataset) (m : String) : Option Timestamp :=
  ((ds.filter (fun r => r.member == m)).filterMap (·.time)).foldl
    (fun acc t =>
      match acc with
      | none => some t
      | some a => if Timestamp.Lt a t then some t else some a) none

/-- Modelled from the spec: `frequency` = distinct lifetime order count;
missing from the source (the source has `lifetime_freq` but never scores
it). -/
def frequencyOf (ds : Dataset) (m : String) : Nat := lifetimeFreq ds m

/-- Modelled from the spec: `monetary` = lifetime revenue sum; missing
from the source. -/
def monetaryOf (ds : Dataset) (m : String) : ℚ :=
  ((ds.filter (fun r => r.member == m)).map (·.amount)).sum

/-- Modelled from the spec: "less recent" order on last-purchase times;
a customer with no parsed purchase at all is the least recent. -/
def olderThan : Option Timestamp → Option Timestamp → Prop
  | none, some _ => True
  | some a, some b => Timestamp.Lt a b
  | _, none => False

instance : DecidableRel olderThan := fun a b =>
  match a, b with
  | none, some _ => .isTrue trivial
  | some a, some b => inferInstanceAs (Decidable (Timestamp.Lt a b))
  | some _, none => .isFalse (fun h => h)
  | none, none => .isFalse (fun h => h)

/-- Modelled from the spec: the recency component of the stable rank
transform — `d` scores strictly worse than `c` when it is less recent,
ties broken by position in the customer list. -/
def worseR (ds : Dataset) (d c : String) : Prop :=
  olderThan (lastPurchase ds d) (lastPurchase ds c) ∨
    (lastPurchase ds d = lastPurchase ds c ∧
      (customersL ds).indexOf d < (customersL ds).indexOf c)

instance (ds : Dataset) : DecidableRel (worseR ds) := fun d c => by
  unfold worseR; infer_instance

/-- Modelled from the spec: the frequency component of the stable rank
transform, smaller distinct order count is worse, ties by position. -/
def worseF (ds : Dataset) (d c : String) : Prop :=
  frequencyOf ds d < frequencyOf ds c ∨
    (frequencyOf ds d = frequencyOf ds c ∧
      (customersL ds).indexOf d < (customersL ds).indexOf c)

instance (ds : Dataset) : DecidableRel (worseF ds) := fun d c => by
  unfold worseF; infer_instance

/-- Modelled from the spec: the monetary component of the stable rank
transform, smaller revenue is worse, ties by position. -/
def worseM (ds : Dataset) (d c : String) : Prop :=
  monetaryOf ds d < monetaryOf ds c ∨
    (monetaryOf ds d = monetaryOf ds c ∧
      (customersL ds).indexOf d < (customersL ds).indexOf c)

instance (ds : Dataset) : DecidableRel (worseM ds) := fun d c => by
  unfold worseM; infer_instance

/-- Modelled from the spec: a customer's rank for one metric — the
number of customers ranking strictly worse under the stable transform. -/
def rankOf (ds : Dataset) (worse : String → String → Prop)
    [DecidableRel worse] (c : String) : Nat :=
  ((customersL ds).filter (fun d => decide (worse d c))).length

/-- Modelled from the spec: recency binning degrades when the metric has
fewer than 5 distinct values (fewer than 5 unique customers, or
near-zero variance). -/
def degradedR (ds : Dataset) : Bool :=
  decide ((((customersL ds).map (lastPurchase ds)).toFinset.card) < 5)

/-- Modelled from the spec: frequency binning degradation test. -/
def degradedF (ds : Dataset) : Bool :=
  decide ((((customersL ds).map (frequencyOf ds)).toFinset.card) < 5)

/-- Modelled from the spec: monetary binning degradation test. -/
def degradedM (ds : Dataset) : Bool :=
  decide ((((customersL ds).map (monetaryOf ds)).toFinset.card) < 5)

/-- Modelled from the spec: the quintile bin of a rank among `n`
customers, on the 1..5 scale (bin 5 = best). -/
def quintile (n rank : Nat) : Nat := rank * 5 / n + 1

/-- Modelled from the spec: `r_score` — quintile of the recency rank, or
the neutral 3 when recency binning degrades. -/
def rScore (ds : Dataset) (c : String) : Nat :=
  if degradedR ds then 3
  else quintile (customersL ds).length (rankOf ds (worseR ds) c)

/-- Modelled from the spec: `f_score`. -/
def fScore (ds : Dataset) (c : String) : Nat :=
  if degradedF ds then 3
  else quintile (customersL ds).length (rankOf ds (worseF ds) c)

/-- Modelled from the spec: `m_score`. -/
def mScore (ds : Dataset) (c : String) : Nat :=
  if degradedM ds then 3
  else quintile (customersL ds).length (rankOf ds (worseM ds) c)

/-- Modelled from the spec: the `rfm_degraded` flag — raised when any
metric's binning degraded. -/
def rfmDegraded (ds : Dataset) : Bool :=
  degradedR ds || degradedF ds || degradedM ds

/-- Modelled from the spec: `rfm_total`, the sum of the three scores. -/
def rfmTotal (ds : Dataset) (c : String) : Nat :=
  rScore ds c + fScore ds c + mScore ds c

/-- The "less recent" order is irreflexive. -/
theorem olderThan_irrefl (a : Option Timestamp) : ¬ olderThan a a := by
  match a with
  | some a => exact Timestamp.Lt_irrefl a
  | none => exact id

/-- No customer is recency-worse than itself. -/
theorem worseR_irrefl (ds : Dataset) (c : String) : ¬ worseR ds c c := by
  rintro (h | ⟨-, h⟩)
  · exact olderThan_irrefl _ h
  · exact Nat.lt_irrefl _ h

/-- No customer is frequency-worse than itself. -/
theorem worseF_irrefl (ds : Dataset) (c : String) : ¬ worseF ds c c := by
  rintro (h | ⟨-, h⟩)
  · exact Nat.lt_irrefl _ h
  · exact Nat.lt_irrefl _ h

/-- No customer is monetary-worse than itself. -/
theorem worseM_irrefl (ds : Dataset) (c : String) : ¬ worseM ds c c := by
  rintro (h | ⟨-, h⟩)
  · exact lt_irrefl _ h
  · exact Nat.lt_irrefl _ h

/-- A scored customer's rank is strictly below the customer count. -/
theorem rankOf_lt {ds : Dataset} {worse : String → String → Prop}
    [DecidableRel worse] {c : String} (hc : c ∈ customersL ds)
    (hirr : ¬ worse c c) : rankOf ds worse c < (customersL ds).length := by
  unfold rankOf
  have hsub : ((customersL ds).filter (fun d => decide (worse d c))).Sublist
      (customersL ds) := List.filter_sublist _
  rcases lt_or_eq_of_le hsub.length_le with h | h
  · exact h
  · exfalso
    have heq := hsub.eq_of_length h
    have hcf : c ∈ (customersL ds).filter (fun d => decide (worse d c)) := by
      rw [heq]
      exact hc
    have hdec := (List.mem_filter.mp hcf).2
    rw [decide_eq_true_eq] at hdec
    exact hirr hdec

/-- A non-degraded metric has at least 5 customers behind it. -/
theorem not_degraded_len {α : Type} [DecidableEq α] {ds : Dataset}
    {f : String → α}
    (h : decide ((((customersL ds).map f).toFinset.card) < 5) = false) :
    5 ≤ (customersL ds).length := by
  have h5 : 5 ≤ ((customersL ds).map f).toFinset.card := by simpa using h
  calc 5 ≤ ((customersL ds).map f).toFinset.card := h5
    _ ≤ ((customersL ds).map f).length := List.toFinset_card_le _
    _ = (customersL ds).length := List.length_map _ _

/-- Quintile bins live on the 1..5 scale. -/
theorem quintile_bounds {n rank : Nat} (hn : 0 < n) (hr : rank < n) :
    1 ≤ quintile n rank ∧ quintile n rank ≤ 5 := by
  unfold quintile
  refine ⟨Nat.le_add_left 1 _, ?_⟩
  have hlt : rank * 5 / n < 5 := by
    rw [Nat.div_lt_iff_lt_mul hn]
    omega
  exact hlt

/-- Bounds for one metric's score, degraded or not. -/
theorem genScore_bounds {ds : Dataset} {c : String} (hc : c ∈ customersL ds)
    (deg : Bool) (worse : String → String → Prop) [DecidableRel worse]
    (hirr : ¬ worse c c) (hdeg : deg = false → 5 ≤ (customersL ds).length) :
    1 ≤ (if deg then 3 else quintile (customersL ds).length (rankOf ds worse c)) ∧
    (if deg then 3 else quintile (customersL ds).length (rankOf ds worse c)) ≤ 5 := by
  cases deg with
  | true => simp
  | false =>
      have hn := hdeg rfl
      have hr := rankOf_lt hc hirr
      simpa using quintile_bounds (by omega) hr

/-- C5 (spec-modelled): for every dataset, each scored customer's
`r_score`, `f_score`, `m_score` lie in {1..5} and `rfm_total` in [3,15];
and when the dataset has a single distinct customer every metric
degrades: `rfm_degraded = true` and all three scores are the neutral 3 —
a defined output, not a failure. -/
theorem score_rfm_bounds (ds : Dataset) (c : String)
    (hc : c ∈ customersL ds) :
    (1 ≤ rScore ds c ∧ rScore ds c ≤ 5) ∧
    (1 ≤ fScore ds c ∧ fScore ds c ≤ 5) ∧
    (1 ≤ mScore ds c ∧ mScore ds c ≤ 5) ∧
    (3 ≤ rfmTotal ds c ∧ rfmTotal ds c ≤ 15) ∧
    ((customersL ds).length = 1 →
      rfmDegraded ds = true ∧ rScore ds c = 3 ∧ fScore ds c = 3 ∧ mScore ds c = 3) := by
  have hbR : 1 ≤ rScore ds c ∧ rScore ds c ≤ 5 :=
    genScore_bounds hc (degradedR ds) (worseR ds) (worseR_irrefl ds c)
      (fun h => not_degraded_len h)
  have hbF : 1 ≤ fScore ds c ∧ fScore ds c ≤ 5 :=
    genScore_bounds hc (degradedF ds) (worseF ds) (worseF_irrefl ds c)
      (fun h => not_degraded_len h)
  have hbM : 1 ≤ mScore ds c ∧ mScore ds c ≤ 5 :=
    genScore_bounds hc (degradedM ds) (worseM ds) (worseM_irrefl ds c)
      (fun h => not_degraded_len h)
  refine ⟨hbR, hbF, hbM, ?_, ?_⟩
  · unfold rfmTotal
    omega
  · intro h1
    have hcard : ∀ {α : Type} [DecidableEq α] (f : String → α),
        (((customersL ds).map f).toFinset.card) < 5 := by
      intro α _ f
      have hle := List.toFinset_card_le ((customersL ds).map f)
      rw [List.length_map, h1] at hle
      omega
    have hdR : degradedR ds = true := by
      unfold degradedR
      rw [decide_eq_true_eq]
      exact hcard _
    have hdF : degradedF ds = true := by
      unfold degradedF
      rw [decide_eq_true_eq]
      exact hcard _
    have hdM : degradedM ds = true := by
      unfold degradedM
      rw [decide_eq_true_eq]
      exact hcard _
    refine ⟨?_, ?_, ?_, ?_⟩
    · unfold rfmDegraded
      rw [hdR]
      rfl
    · unfold rScore
      rw [hdR]
      rfl
    · unfold fScore
      rw [hdF]
      rfl
    · unfold mScore
      rw [hdM]
      rfl

/-- A dataset with a single distinct customer. -/
def dsW5 : Dataset := [⟨"O1", some ⟨2024, 1, 1⟩, "A", "P", 100⟩]

/-- C5 witness: on the single-customer dataset the total is in range and
the degraded path yields the flag and the neutral scores. -/
theorem score_rfm_bounds_witness :
    (3 ≤ rfmTotal dsW5 "A" ∧ rfmTotal dsW5 "A" ≤ 15) ∧
    (rfmDegraded dsW5 = true ∧ rScore dsW5 "A" = 3 ∧ fScore dsW5 "A" = 3 ∧
      mScore dsW5 "A" = 3) :=
  ⟨(score_rfm_bounds dsW5 "A" (by decide)).2.2.2.1,
   (score_rfm_bounds dsW5 "A" (by decide)).2.2.2.2 (by decide)⟩

end CRM
